import Mathlib

/-!
# Verification of `fix_problem_sheet.py`

A shallow embedding of the session-export fixer: `parse_question`,
`extract_session_records` and `build_problem_sheet_rows`, translated from
the Python source, together with theorems settling the specification
claims about them.

Python strings are modelled as Lean `String`/`List Char`.  Python's `int`
values are `Int` (arbitrary precision in both languages).  A Python
function that can raise is modelled with `Except`/`Option`.
-/

namespace ZetamacFix

/-! ## Character classes

Python's `str.strip()` and the regex class `\s` accept Unicode whitespace;
the inputs of this pipeline only ever involve the ASCII whitespace
characters, which we model exactly. -/

def pyIsSpace (c : Char) : Bool :=
  c = ' ' || c = '\t' || c = '\n' || c = '\r' || c = '\x0b' || c = '\x0c'

/-- Python's regex class `\d` (and `int()`) accept every character of
Unicode category Nd, not only ASCII digits.  We model the ASCII digits
together with representative non-ASCII Nd ranges (Arabic-Indic,
extended Arabic-Indic, Devanagari, fullwidth); all characters appearing
in this development are covered. -/
def pyIsDigit (c : Char) : Bool :=
  ('0' ≤ c && c ≤ '9')
  || ('٠' ≤ c && c ≤ '٩')
  || ('۰' ≤ c && c ≤ '۹')
  || ('०' ≤ c && c ≤ '९')
  || ('０' ≤ c && c ≤ '９')

/-- Whether a character is a plain ASCII decimal digit (the spec's
"plain decimal integer" alphabet). -/
def isAsciiDigit (c : Char) : Bool := '0' ≤ c && c ≤ '9'

/-- Numeric value of a digit character (Unicode Nd as modelled above). -/
def pyDigitVal (c : Char) : Nat :=
  if '0' ≤ c && c ≤ '9' then c.toNat - '0'.toNat
  else if '٠' ≤ c && c ≤ '٩' then c.toNat - 0x660
  else if '۰' ≤ c && c ≤ '۹' then c.toNat - 0x6F0
  else if '०' ≤ c && c ≤ '९' then c.toNat - 0x966
  else if '０' ≤ c && c ≤ '９' then c.toNat - 0xFF10
  else 0

/-- Base-10 value of a digit sequence. -/
def digitsVal (ds : List Char) : Nat :=
  ds.foldl (fun acc c => 10 * acc + pyDigitVal c) 0

/-! ## String helpers mirroring the Python `str` methods used -/

/-- Python `s.strip()` (with the ASCII whitespace model). -/
def pyStrip (l : List Char) : List Char :=
  ((l.dropWhile pyIsSpace).reverse.dropWhile pyIsSpace).reverse

def isCommaSpace (c : Char) : Bool := c = ',' || c = ' '

/-- Python `s.rstrip(", ")`. -/
def pyRstripCS (l : List Char) : List Char :=
  (l.reverse.dropWhile isCommaSpace).reverse

/-- Python `s.lstrip(", ")`. -/
def pyLstripCS (l : List Char) : List Char :=
  l.dropWhile isCommaSpace

/-- Trimming commas/spaces from BOTH ends of a region, as claim C6
describes the region handling; the code performs only the one-sided
trims `pyRstripCS`/`pyLstripCS`, and the two disagree observably. -/
def trimBothCS (l : List Char) : List Char :=
  (pyRstripCS l).dropWhile isCommaSpace

/-- Python `s.startswith(pre)`. -/
def pyStartsWith (s pre : String) : Bool :=
  pre.data.isPrefixOf s.data

/-- Python `s.split(",")`. -/
def splitComma : List Char → List (List Char)
  | [] => [[]]
  | ',' :: rest => [] :: splitComma rest
  | c :: rest =>
    match splitComma rest with
    | [] => [[c]]
    | f :: fs => (c :: f) :: fs

/-- Python `s.split("<>")`: split on the two-character delimiter,
left to right, non-overlapping. -/
def splitAngle : List Char → List (List Char)
  | [] => [[]]
  | '<' :: '>' :: rest => [] :: splitAngle rest
  | c :: rest =>
    match splitAngle rest with
    | [] => [[c]]
    | f :: fs => (c :: f) :: fs

/-- Python `text[text.find(pat) + len(pat):]` guarded by
`text.find(pat) != -1`: drop everything up to and including the first
occurrence of `pat`, or `none` when `pat` does not occur. -/
def dropAfterSub (pat : List Char) : List Char → Option (List Char)
  | [] => if pat.isPrefixOf ([] : List Char) then some [] else none
  | c :: rest =>
    if pat.isPrefixOf (c :: rest) then some ((c :: rest).drop pat.length)
    else dropAfterSub pat rest

/-! ## Constant tables -/

def SESSION_HEADER : String :=
  "Timestamp,ClientId,URL,Duration,Score,ProblemsJson,Mode,MappedDuration,Score_120"

/-- Table `OP_SYMBOL_TO_NAME`: the operator symbols of `QUESTION_RE`'s class
mapped to canonical operation names.  (The regex class and the table keys
are the same nine characters.) -/
def OP_SYMBOL_TO_NAME (c : Char) : Option String :=
  if c = '+' then some "add"
  else if c = '-' then some "sub"
  else if c = '−' then some "sub"   -- unicode minus
  else if c = '×' then some "mul"
  else if c = 'x' then some "mul"
  else if c = 'X' then some "mul"
  else if c = '*' then some "mul"
  else if c = '÷' then some "div"
  else if c = '/' then some "div"
  else none

def OP_TYPE_TO_NAME (s : String) : Option String :=
  if s = "addition" then some "add"
  else if s = "subtraction" then some "sub"
  else if s = "multiplication" then some "mul"
  else if s = "division" then some "div"
  else none

/-! ## `parse_question` -/

/-- Model of `QUESTION_RE.fullmatch` on `\s*(\d+)\s*([+\-−×xX*÷/])\s*(\d+)\s*`,
followed by the table lookup and `int()` conversions of `parse_question`.
The three character classes (whitespace, digit, operator) are pairwise
disjoint, so the greedy regex with its full-string anchor is equivalent
to this left-to-right maximal-munch scan.  `int()` on a `\d+` match never
fails, and the symbol table covers exactly the regex operator class, so
the two dead failure branches of the Python function collapse into the
lookup here. -/
def pqChars (cs : List Char) : Option (String × Nat × Nat) :=
  let r1 := cs.dropWhile pyIsSpace
  let d1 := r1.takeWhile pyIsDigit
  if d1.isEmpty then none else
  let r2 := (r1.dropWhile pyIsDigit).dropWhile pyIsSpace
  match r2 with
  | [] => none
  | c :: r3 =>
    match OP_SYMBOL_TO_NAME c with
    | none => none
    | some op =>
      let r4 := r3.dropWhile pyIsSpace
      let d2 := r4.takeWhile pyIsDigit
      if d2.isEmpty then none else
      if ((r4.dropWhile pyIsDigit).dropWhile pyIsSpace).isEmpty then
        some (op, digitsVal d1, digitsVal d2)
      else none

def parse_question (q : String) : Option (String × Nat × Nat) :=
  pqChars q.data

/-! ## `int()` coercion (`to_int`) -/

/-- Digit loop of Python `int()` after the first digit: single
underscores are allowed between digits, nothing else. -/
def intGo : List Char → Nat → Option Nat
  | [], acc => some acc
  | c :: rest, acc =>
    if c = '_' then
      match rest with
      | c2 :: rest2 =>
        if pyIsDigit c2 then intGo rest2 (10 * acc + pyDigitVal c2) else none
      | [] => none
    else if pyIsDigit c then intGo rest (10 * acc + pyDigitVal c) else none

def startDigits : List Char → Option Nat
  | [] => none
  | c :: rest => if pyIsDigit c then intGo rest (pyDigitVal c) else none

/-- Python `int(s)` on a string: strip whitespace, optional single sign,
then a nonempty digit sequence with optional single underscores between
digits; any other shape raises, modelled as `none`.  This is `to_int` of
the source (whose `except` catches exactly that failure). -/
def pyInt (s : String) : Option Int :=
  match ((s.data.dropWhile pyIsSpace).reverse.dropWhile pyIsSpace).reverse with
  | [] => none
  | c :: rest =>
    if c = '+' then (startDigits rest).map (fun n => (n : Int))
    else if c = '-' then (startDigits rest).map (fun n => -(n : Int))
    else (startDigits (c :: rest)).map (fun n => (n : Int))

/-! ## JSON (`json.loads`)

The source calls `json.loads` on the bracketed substring.  We embed the
strict JSON accepted by Python's decoder: `true`/`false`/`null`, the
extensions `NaN`/`Infinity`/`-Infinity`, strings with escapes, numbers,
arrays and objects.  Numeric literals are kept as their source text —
no claim depends on a numeric value, only on parse success and on the
shapes of values, which keeps floating point out of the model. -/

inductive JValue where
  | jnull
  | jbool (b : Bool)
  | jnum (lexeme : String)
  | jstr (s : String)
  | jarr (elems : List JValue)
  | jobj (fields : List (String × JValue))
deriving Inhabited

/-- JSON whitespace (space, tab, line feed, carriage return). -/
def jskipWs (l : List Char) : List Char :=
  l.dropWhile (fun c => c = ' ' || c = '\t' || c = '\n' || c = '\r')

def hexVal (c : Char) : Option Nat :=
  let n := c.toNat
  if 0x30 ≤ n && n ≤ 0x39 then some (n - 0x30)
  else if 0x61 ≤ n && n ≤ 0x66 then some (n - 0x57)
  else if 0x41 ≤ n && n ≤ 0x46 then some (n - 0x37)
  else none

def hex4 (h1 h2 h3 h4 : Char) : Option Nat := do
  let a ← hexVal h1
  let b ← hexVal h2
  let c ← hexVal h3
  let d ← hexVal h4
  pure (((a * 16 + b) * 16 + c) * 16 + d)

/-- Make a character from a code point; code points Lean's `Char` cannot
hold (unpaired surrogates, which Python keeps in its strings) take
`Char.ofNat`'s replacement value.  No claim involves such an input. -/
def charOfCode (n : Nat) : Char := Char.ofNat n

/-- Body of a JSON string after the opening quote: returns the decoded
characters and the remainder after the closing quote.  Fueled: each step
consumes at least one input character, so `length + 1` fuel (supplied by
the caller) never runs out before the input does. -/
def jstrGo : Nat → List Char → List Char → Option (List Char × List Char)
  | 0, _, _ => none
  | _ + 1, acc, '"' :: rest => some (acc.reverse, rest)
  | fuel + 1, acc, '\\' :: esc =>
    match esc with
    | '"' :: r => jstrGo fuel ('"' :: acc) r
    | '\\' :: r => jstrGo fuel ('\\' :: acc) r
    | '/' :: r => jstrGo fuel ('/' :: acc) r
    | 'b' :: r => jstrGo fuel ('\x08' :: acc) r
    | 'f' :: r => jstrGo fuel ('\x0c' :: acc) r
    | 'n' :: r => jstrGo fuel ('\n' :: acc) r
    | 'r' :: r => jstrGo fuel ('\r' :: acc) r
    | 't' :: r => jstrGo fuel ('\t' :: acc) r
    | 'u' :: h1 :: h2 :: h3 :: h4 :: r =>
      match hex4 h1 h2 h3 h4 with
      | none => none
      | some n =>
        if 0xd800 ≤ n && n < 0xdc00 then
          -- high surrogate: Python combines it with an immediately
          -- following low surrogate escape
          match r with
          | '\\' :: 'u' :: g1 :: g2 :: g3 :: g4 :: r2 =>
            match hex4 g1 g2 g3 g4 with
            | some m =>
              if 0xdc00 ≤ m && m < 0xe000 then
                jstrGo fuel (charOfCode (0x10000 + (n - 0xd800) * 0x400 + (m - 0xdc00)) :: acc) r2
              else jstrGo fuel (charOfCode n :: acc) ('\\' :: 'u' :: g1 :: g2 :: g3 :: g4 :: r2)
            | none => jstrGo fuel (charOfCode n :: acc) ('\\' :: 'u' :: g1 :: g2 :: g3 :: g4 :: r2)
          | _ => jstrGo fuel (charOfCode n :: acc) r
        else jstrGo fuel (charOfCode n :: acc) r
    | _ => none
  | fuel + 1, acc, c :: rest => if c.toNat < 0x20 then none else jstrGo fuel (c :: acc) rest
  | _, _, [] => none

/-- JSON number grammar (ASCII digits, as in Python's C scanner):
`-? (0 | [1-9][0-9]*) (\.[0-9]+)? ([eE][+-]?[0-9]+)?`.  Returns the
lexeme and the remainder. -/
def parseNum (l : List Char) : Option (List Char × List Char) :=
  let (sign, l1) :=
    match l with
    | '-' :: r => (['-'], r)
    | _ => (([] : List Char), l)
  match l1 with
  | c :: r =>
    if c = '0' then numFrac (sign ++ [c]) r
    else if '1' ≤ c && c ≤ '9' then
      numFrac (sign ++ c :: r.takeWhile isAsciiDigit) (r.dropWhile isAsciiDigit)
    else none
  | [] => none
where
  numFrac (intPart : List Char) (l : List Char) : Option (List Char × List Char) :=
    match l with
    | '.' :: r =>
      let ds := r.takeWhile isAsciiDigit
      if ds.isEmpty then none
      else numExp (intPart ++ '.' :: ds) (r.dropWhile isAsciiDigit)
    | _ => numExp intPart l
  numExp (mantissa : List Char) (l : List Char) : Option (List Char × List Char) :=
    match l with
    | c :: r =>
      if c = 'e' || c = 'E' then
        let (sgn, r1) :=
          match r with
          | '+' :: r1 => (['+'], r1)
          | '-' :: r1 => (['-'], r1)
          | _ => (([] : List Char), r)
        let ds := r1.takeWhile isAsciiDigit
        if ds.isEmpty then none
        else some (mantissa ++ c :: sgn ++ ds, r1.dropWhile isAsciiDigit)
      else some (mantissa, l)
    | [] => some (mantissa, l)

mutual

/-- One JSON value starting at `l` (leading whitespace allowed). -/
def parseValue : Nat → List Char → Option (JValue × List Char)
  | 0, _ => none
  | fuel + 1, l =>
    match jskipWs l with
    | 't' :: 'r' :: 'u' :: 'e' :: r => some (.jbool true, r)
    | 'f' :: 'a' :: 'l' :: 's' :: 'e' :: r => some (.jbool false, r)
    | 'n' :: 'u' :: 'l' :: 'l' :: r => some (.jnull, r)
    | 'N' :: 'a' :: 'N' :: r => some (.jnum "NaN", r)
    | 'I' :: 'n' :: 'f' :: 'i' :: 'n' :: 'i' :: 't' :: 'y' :: r =>
      some (.jnum "Infinity", r)
    | '-' :: 'I' :: 'n' :: 'f' :: 'i' :: 'n' :: 'i' :: 't' :: 'y' :: r =>
      some (.jnum "-Infinity", r)
    | '"' :: r =>
      match jstrGo (r.length + 1) [] r with
      | some (cs, rest) => some (.jstr (String.mk cs), rest)
      | none => none
    | '[' :: r =>
      match jskipWs r with
      | ']' :: rest => some (.jarr [], rest)
      | r1 => parseArrElems fuel r1
    | '{' :: r =>
      match jskipWs r with
      | '}' :: rest => some (.jobj [], rest)
      | r1 => parseObjFields fuel r1
    | l1 =>
      match parseNum l1 with
      | some (lex, rest) => some (.jnum (String.mk lex), rest)
      | none => none

/-- Elements of a nonempty array, the first starting at `l`; consumes
the closing `]`. -/
def parseArrElems : Nat → List Char → Option (JValue × List Char)
  | 0, _ => none
  | fuel + 1, l =>
    match parseValue fuel l with
    | none => none
    | some (v, rest) =>
      match jskipWs rest with
      | ',' :: r2 =>
        match parseArrElems fuel r2 with
        | some (.jarr vs, rest2) => some (.jarr (v :: vs), rest2)
        | _ => none
      | ']' :: r2 => some (.jarr [v], r2)
      | _ => none

/-- Fields of a nonempty object, the first key starting at `l`; consumes
the closing `}`.  A duplicate key later in the object overwrites the
earlier one when looked up, as in a Python dict. -/
def parseObjFields : Nat → List Char → Option (JValue × List Char)
  | 0, _ => none
  | fuel + 1, l =>
    match jskipWs l with
    | '"' :: r =>
      match jstrGo (r.length + 1) [] r with
      | none => none
      | some (key, r1) =>
        match jskipWs r1 with
        | ':' :: r2 =>
          match parseValue fuel r2 with
          | none => none
          | some (v, rest) =>
            match jskipWs rest with
            | ',' :: r3 =>
              match parseObjFields fuel r3 with
              | some (.jobj fs, rest2) => some (.jobj ((String.mk key, v) :: fs), rest2)
              | _ => none
            | '}' :: r3 => some (.jobj [(String.mk key, v)], r3)
            | _ => none
        | _ => none
    | _ => none

end

/-- Model of `json.loads`: one JSON value, with only whitespace allowed after it.
The fuel `2 * length + 8` dominates the recursion depth: every two fuel
steps consume at least one input character. -/
def jsonParse (s : String) : Option JValue :=
  match parseValue (2 * s.data.length + 8) s.data with
  | some (v, rest) => if (jskipWs rest).isEmpty then some v else none
  | none => none

/-! ## `extract_session_records` -/

/-- The dict built for each accepted record (all nine keys are always
assigned, so the embedding is a plain structure). -/
structure SessionRecord where
  timestamp : String
  client_id : String
  url : String
  duration : Option Int
  score : Option Int
  problems : List JValue
  mode : String
  mapped_duration : Option Int
  score_120 : Option Int
deriving Inhabited

inductive ExtractError where
  | headerNotFound
  | jsonDecode
deriving DecidableEq

/-- Outcome of the loop body for one chunk: silently skipped (`continue`),
a record appended, or the re-raised `json.JSONDecodeError`. -/
inductive ChunkResult where
  | skip
  | record (r : SessionRecord)
  | jsonError

/-- A successfully parsed bracketed substring begins with `[`; a JSON
value beginning with `[` is an array, so the non-array branches are
unreachable from `processChunk`. -/
def jarrElems : JValue → List JValue
  | .jarr l => l
  | _ => []

/-- The body of the per-chunk loop after the three regions have been cut
out and trimmed: split the (right-trimmed) text before `[` into the five
prefix CSV fields, decode the bracketed substring, split the
(left-trimmed) text after `]` into up to three suffix fields padded with
empty strings, and coerce the numeric fields with `to_int`. -/
def processRegions (preR jsonR sufR : List Char) : ChunkResult :=
  let prefixFields := (splitComma preR).map pyStrip
  if prefixFields.length < 5 then .skip
  else
    match jsonParse (String.mk jsonR) with
    | none => .jsonError
    | some v =>
      let sf0 := ((splitComma sufR).map pyStrip).filter (· ≠ [])
      -- `while len(suffix_fields) < 3: suffix_fields.append("")`
      let sf := sf0 ++ List.replicate (3 - sf0.length) []
      .record {
        timestamp := String.mk (prefixFields.getD 0 [])
        client_id := String.mk (prefixFields.getD 1 [])
        url := String.mk (prefixFields.getD 2 [])
        duration := pyInt (String.mk (prefixFields.getD 3 []))
        score := pyInt (String.mk (prefixFields.getD 4 []))
        problems := jarrElems v
        mode := String.mk (sf.getD 0 [])
        mapped_duration := pyInt (String.mk (sf.getD 1 []))
        score_120 := pyInt (String.mk (sf.getD 2 [])) }

/-- Index of the first occurrence of `c` (Python `find`, `none` for -1). -/
def pyFindIdx (c : Char) : List Char → Option Nat
  | [] => none
  | x :: xs => if x = c then some 0 else (pyFindIdx c xs).map (· + 1)

/-- Index of the last occurrence of `c` (Python `rfind`, `none` for -1). -/
def rfindIdx (c : Char) (l : List Char) : Option Nat :=
  (pyFindIdx c l.reverse).map (fun i => l.length - 1 - i)

/-- One iteration of the record loop on an (already stripped) chunk. -/
def processChunk (rec : List Char) : ChunkResult :=
  if rec.isEmpty then .skip
  else if SESSION_HEADER.data.isPrefixOf rec then .skip
  else
    match pyFindIdx '[' rec, rfindIdx ']' rec with
    | some lb, some rb =>
      if rb < lb then .skip
      else
        processRegions (pyRstripCS (rec.take lb))
          ((rec.drop lb).take (rb + 1 - lb))
          (pyLstripCS (rec.drop (rb + 1)))
    | _, _ => .skip

/-- The record loop: a `.jsonError` chunk aborts the whole run, `.skip`
chunks contribute nothing, records keep encounter order. -/
def extractGo : List (List Char) → Except ExtractError (List SessionRecord)
  | [] => .ok []
  | c :: cs =>
    match processChunk c with
    | .skip => extractGo cs
    | .jsonError => .error .jsonDecode
    | .record r => (extractGo cs).map (r :: ·)

def extract_session_records (raw : String) : Except ExtractError (List SessionRecord) :=
  -- `raw_text.replace("\r", "")`
  let text := raw.data.filter (· ≠ '\r')
  match dropAfterSub SESSION_HEADER.data text with
  | none => .error .headerNotFound
  | some rest => extractGo ((splitAngle rest).map pyStrip)

/-! ## `build_problem_sheet_rows` -/

abbrev Row := List String

/-- Python `str(x) if x is not None else ""`. -/
def strOfOptInt : Option Int → String
  | some n => toString n
  | none => ""

/-- Python `dict.get` on a dict built from a JSON object: a key repeated
in the object keeps its last value. -/
def jget (kvs : List (String × JValue)) (k : String) : Option JValue :=
  match kvs with
  | [] => none
  | (k', v) :: rest =>
    match jget rest k with
    | some w => some w
    | none => if k' = k then some v else none

/-- The loop body for one problem entry `p` at 1-based index `idx`.
`ok none` is `continue` (a silent skip), `error` a raised exception:
* a non-dict entry has no `.get`, an `AttributeError`;
* `op_type == "unknown"` is `False` whenever the value is not a string,
  and short-circuits past the `startswith` call;
* `question.startswith(...)` on a non-string value is an `AttributeError`;
* `OP_TYPE_TO_NAME.get(op_type)` raises `TypeError` when `op_type` is an
  unhashable value (a JSON array or object); other non-string values are
  hashable and simply miss the table. -/
def rowFor (s : SessionRecord) (idx : Nat) (p : JValue) : Except String (Option Row) :=
  match p with
  | .jobj kvs =>
    let qv := (jget kvs "question").getD (.jstr "")
    let tv := (jget kvs "operationType").getD (.jstr "")
    let isUnknown : Bool := match tv with | .jstr t => t == "unknown" | _ => false
    if isUnknown then .ok none
    else
      match qv with
      | .jstr q =>
        if pyStartsWith q "final-missed-" then .ok none
        else
          match tv with
          | .jarr _ => .error "TypeError: unhashable type"
          | .jobj _ => .error "TypeError: unhashable type"
          | _ =>
            let parsed := parse_question q
            let opFromType : Option String :=
              match tv with
              | .jstr t => OP_TYPE_TO_NAME t
              | _ => none
            -- `if not op_name and op_name_from_sym: op_name = op_name_from_sym`
            let opName : Option String :=
              match opFromType with
              | some o => some o
              | none => match parsed with | some (o, _, _) => some o | none => none
            match opName, parsed with
            | some op, some (_, a, b) =>
              .ok (some [s.timestamp, s.client_id, op, toString a, toString b, "",
                strOfOptInt s.duration, strOfOptInt s.score, s.mode,
                strOfOptInt s.mapped_duration, s.url, toString idx])
            | _, _ => .ok none
      | _ => .error "AttributeError"
  | _ => .error "AttributeError"

/-- The inner loop over `enumerate(problems, start=1)`. -/
def rowsGo (s : SessionRecord) : Nat → List JValue → Except String (List Row)
  | _, [] => .ok []
  | idx, p :: ps =>
    match rowFor s idx p with
    | .error e => .error e
    | .ok none => rowsGo s (idx + 1) ps
    | .ok (some r) => (rowsGo s (idx + 1) ps).map (r :: ·)

/-- Rows of one session.  (`session["problems"] or []` is the identity on
lists: the empty list is falsy and replaced by the empty list.) -/
def rowsForSession (s : SessionRecord) : Except String (List Row) :=
  rowsGo s 1 s.problems

def build_problem_sheet_rows : List SessionRecord → Except String (List Row)
  | [] => .ok []
  | s :: ss =>
    match rowsForSession s with
    | .error e => .error e
    | .ok rs => (build_problem_sheet_rows ss).map (rs ++ ·)

/-! ## Predicates used by the theorem statements -/

def allSpace (l : List Char) : Prop := ∀ c ∈ l, pyIsSpace c = true

def allDigit (l : List Char) : Prop := ∀ c ∈ l, pyIsDigit c = true

instance : DecidablePred allSpace := fun l => List.decidableBAll _ l

instance : DecidablePred allDigit := fun l => List.decidableBAll _ l

/-- The row literal built at the end of the loop body (line 202 of the
source), for session fields `s`, operation `op`, operands `a b` and
1-based index `idx`. -/
def mkRow (s : SessionRecord) (op : String) (a b : Nat) (idx : Nat) : Row :=
  [s.timestamp, s.client_id, op, toString a, toString b, "",
    strOfOptInt s.duration, strOfOptInt s.score, s.mode,
    strOfOptInt s.mapped_duration, s.url, toString idx]

/-! ## Sample inputs for the witnesses -/

def sampleSession : SessionRecord :=
  ⟨"2024-01-01T00:00:00", "client1", "https://x", some 120, some 45, [], "normal",
    some 120, some 45⟩

/-- The record produced from prefix `"t,c,u,9,x"`, problems `"[1]"` and
an empty (truncated) suffix region. -/
def sampleRecordC8 : SessionRecord :=
  ⟨"t", "c", "u", some 9, none, [.jnum "1"], "", none, none⟩

/-- Three problems of which the second is skipped (`unknown`). -/
def sampleSession5 : SessionRecord :=
  { sampleSession with
    problems :=
      [.jobj [("question", .jstr "3 + 4"), ("operationType", .jstr "addition")],
        .jobj [("question", .jstr "5 + 5"), ("operationType", .jstr "unknown")],
        .jobj [("question", .jstr "1 - 2"), ("operationType", .jstr "subtraction")]] }

/-! ## Character-class facts -/

theorem pyIsSpace_mem {c : Char} (h : pyIsSpace c = true) :
    c = ' ' ∨ c = '\t' ∨ c = '\n' ∨ c = '\r' ∨ c = '\x0b' ∨ c = '\x0c' := by
  have h' := h
  simp only [pyIsSpace, Bool.or_eq_true, decide_eq_true_eq] at h'
  tauto

theorem not_digit_of_space {c : Char} (h : pyIsSpace c = true) : pyIsDigit c = false := by
  rcases pyIsSpace_mem h with h' | h' | h' | h' | h' | h' <;> subst h' <;> decide

theorem not_space_of_digit {c : Char} (h : pyIsDigit c = true) : pyIsSpace c = false := by
  cases hs : pyIsSpace c
  · rfl
  · rw [not_digit_of_space hs] at h; exact absurd h (by simp)

theorem op_char_mem {c : Char} {o : String} (h : OP_SYMBOL_TO_NAME c = some o) :
    c = '+' ∨ c = '-' ∨ c = '−' ∨ c = '×' ∨ c = 'x' ∨ c = 'X' ∨ c = '*' ∨
      c = '÷' ∨ c = '/' := by
  unfold OP_SYMBOL_TO_NAME at h
  split_ifs at h with h1 h2 h3 h4 h5 h6 h7 h8 h9 <;> tauto

theorem op_not_space {c : Char} {o : String} (h : OP_SYMBOL_TO_NAME c = some o) :
    pyIsSpace c = false := by
  rcases op_char_mem h with h' | h' | h' | h' | h' | h' | h' | h' | h' <;>
    subst h' <;> decide

theorem op_not_digit {c : Char} {o : String} (h : OP_SYMBOL_TO_NAME c = some o) :
    pyIsDigit c = false := by
  rcases op_char_mem h with h' | h' | h' | h' | h' | h' | h' | h' | h' <;>
    subst h' <;> decide

/-! ## `takeWhile`/`dropWhile` helpers -/

theorem dropWhile_append_all {p : Char → Bool} {l : List Char}
    (h : ∀ c ∈ l, p c = true) (r : List Char) :
    (l ++ r).dropWhile p = r.dropWhile p := by
  induction l with
  | nil => rfl
  | cons c l ih =>
    have hc : p c = true := h c (List.mem_cons_self c l)
    simp only [List.cons_append, List.dropWhile_cons, hc, if_true]
    exact ih (fun x hx => h x (List.mem_cons_of_mem c hx))

theorem takeWhile_append_all {p : Char → Bool} {l : List Char}
    (h : ∀ c ∈ l, p c = true) (r : List Char) :
    (l ++ r).takeWhile p = l ++ r.takeWhile p := by
  induction l with
  | nil => rfl
  | cons c l ih =>
    have hc : p c = true := h c (List.mem_cons_self c l)
    simp only [List.cons_append, List.takeWhile_cons, hc, if_true]
    rw [ih (fun x hx => h x (List.mem_cons_of_mem c hx))]

theorem dropWhile_head_neg {p : Char → Bool} {c : Char} (h : p c = false)
    (l : List Char) : (c :: l).dropWhile p = c :: l := by
  simp [List.dropWhile_cons, h]

theorem takeWhile_head_neg {p : Char → Bool} {c : Char} (h : p c = false)
    (l : List Char) : (c :: l).takeWhile p = [] := by
  simp [List.takeWhile_cons, h]

/-- Running `dropWhile` through an all-`p` block that stops at a following
non-`p` head. -/
theorem dropWhile_all_then_neg {p : Char → Bool} {l : List Char}
    (h : ∀ c ∈ l, p c = true) {c : Char} (hc : p c = false) (r : List Char) :
    (l ++ c :: r).dropWhile p = c :: r := by
  rw [dropWhile_append_all h, dropWhile_head_neg hc]

/-- Running `takeWhile` over an all-`p` block followed by a non-`p` head. -/
theorem takeWhile_all_then_neg {p : Char → Bool} {l : List Char}
    (h : ∀ c ∈ l, p c = true) {c : Char} (hc : p c = false) (r : List Char) :
    (l ++ c :: r).takeWhile p = l := by
  rw [takeWhile_append_all h, takeWhile_head_neg hc, List.append_nil]

/-! ## Characterization of `parse_question` -/

/-- Completeness: the scanner accepts every full decomposition into
whitespace, digits, an operator symbol, digits, whitespace. -/
theorem pq_complete {w1 d1 w2 w3 d2 w4 : List Char} {c : Char} {op : String}
    (hw1 : allSpace w1) (hd1 : allDigit d1) (hne1 : d1 ≠ [])
    (hw2 : allSpace w2) (hop : OP_SYMBOL_TO_NAME c = some op)
    (hw3 : allSpace w3) (hd2 : allDigit d2) (hne2 : d2 ≠ [])
    (hw4 : allSpace w4) :
    pqChars (w1 ++ d1 ++ w2 ++ c :: (w3 ++ d2 ++ w4)) =
      some (op, digitsVal d1, digitsVal d2) := by
  obtain ⟨e1, d1', rfl⟩ := List.exists_cons_of_ne_nil hne1
  obtain ⟨e2, d2', rfl⟩ := List.exists_cons_of_ne_nil hne2
  have he1 : pyIsDigit e1 = true := hd1 e1 (by simp)
  have he2 : pyIsDigit e2 = true := hd2 e2 (by simp)
  have hmid : ∀ X : List Char,
      (w2 ++ c :: X).takeWhile pyIsDigit = [] ∧
        (w2 ++ c :: X).dropWhile pyIsDigit = w2 ++ c :: X := by
    intro X
    cases w2 with
    | nil =>
      exact ⟨takeWhile_head_neg (op_not_digit hop) _,
        dropWhile_head_neg (op_not_digit hop) _⟩
    | cons s w2' =>
      have hs : pyIsDigit s = false := not_digit_of_space (hw2 s (by simp))
      exact ⟨takeWhile_head_neg hs _, dropWhile_head_neg hs _⟩
  have htail : (w4.takeWhile pyIsDigit = []) ∧ (w4.dropWhile pyIsDigit = w4) := by
    cases w4 with
    | nil => exact ⟨rfl, rfl⟩
    | cons s w4' =>
      have hs : pyIsDigit s = false := not_digit_of_space (hw4 s (by simp))
      exact ⟨takeWhile_head_neg hs _, dropWhile_head_neg hs _⟩
  have h1 : (w1 ++ ((e1 :: d1') ++ (w2 ++ c :: (w3 ++ ((e2 :: d2') ++ w4))))).dropWhile
      pyIsSpace = (e1 :: d1') ++ (w2 ++ c :: (w3 ++ ((e2 :: d2') ++ w4))) := by
    rw [dropWhile_append_all hw1]
    exact dropWhile_head_neg (not_space_of_digit he1) _
  have h2 : ((e1 :: d1') ++ (w2 ++ c :: (w3 ++ ((e2 :: d2') ++ w4)))).takeWhile
      pyIsDigit = e1 :: d1' := by
    rw [takeWhile_append_all hd1, (hmid _).1, List.append_nil]
  have h3 : ((e1 :: d1') ++ (w2 ++ c :: (w3 ++ ((e2 :: d2') ++ w4)))).dropWhile
      pyIsDigit = w2 ++ c :: (w3 ++ ((e2 :: d2') ++ w4)) := by
    rw [dropWhile_append_all hd1]
    exact (hmid _).2
  have h4 : (w2 ++ c :: (w3 ++ ((e2 :: d2') ++ w4))).dropWhile pyIsSpace =
      c :: (w3 ++ ((e2 :: d2') ++ w4)) :=
    dropWhile_all_then_neg hw2 (op_not_space hop) _
  have h5 : (w3 ++ ((e2 :: d2') ++ w4)).dropWhile pyIsSpace = (e2 :: d2') ++ w4 := by
    rw [dropWhile_append_all hw3]
    exact dropWhile_head_neg (not_space_of_digit he2) _
  have h6 : ((e2 :: d2') ++ w4).takeWhile pyIsDigit = e2 :: d2' := by
    rw [takeWhile_append_all hd2, htail.1, List.append_nil]
  have h7 : ((e2 :: d2') ++ w4).dropWhile pyIsDigit = w4 := by
    rw [dropWhile_append_all hd2]
    exact htail.2
  have h8 : w4.dropWhile pyIsSpace = [] := List.dropWhile_eq_nil_iff.mpr hw4
  unfold pqChars
  simp only [List.append_assoc, List.cons_append] at h1 h2 h3 h4 h5 h6 h7 ⊢
  simp only [h1, h2, h3, h4, h5, h6, h7, h8, hop, List.isEmpty_cons, List.isEmpty_nil,
    Bool.false_eq_true, if_false, if_true]

/-- Soundness: every accepted input decomposes into whitespace, digits,
an operator symbol, digits, whitespace, and the result is determined by
the pieces. -/
theorem pq_sound {cs : List Char} {op : String} {a b : Nat}
    (h : pqChars cs = some (op, a, b)) :
    ∃ w1 d1 w2 c w3 d2 w4,
      cs = w1 ++ d1 ++ w2 ++ c :: (w3 ++ d2 ++ w4) ∧
      allSpace w1 ∧ allDigit d1 ∧ d1 ≠ [] ∧ allSpace w2 ∧
      OP_SYMBOL_TO_NAME c = some op ∧ allSpace w3 ∧ allDigit d2 ∧ d2 ≠ [] ∧
      allSpace w4 ∧ a = digitsVal d1 ∧ b = digitsVal d2 := by
  unfold pqChars at h
  simp only [] at h
  split at h
  · exact absurd h (by simp)
  next hne1 =>
    split at h
    · exact absurd h (by simp)
    next c r3 hr3 =>
      split at h
      · exact absurd h (by simp)
      next op' hop =>
        split at h
        · exact absurd h (by simp)
        next hne2 =>
          split at h
          swap
          · exact absurd h (by simp)
          next hw4 =>
            obtain ⟨hop', ha, hb⟩ : op' = op ∧ digitsVal _ = a ∧ digitsVal _ = b := by
              simpa using h
            subst hop'
            refine ⟨cs.takeWhile pyIsSpace,
              (cs.dropWhile pyIsSpace).takeWhile pyIsDigit,
              ((cs.dropWhile pyIsSpace).dropWhile pyIsDigit).takeWhile pyIsSpace,
              c, r3.takeWhile pyIsSpace,
              (r3.dropWhile pyIsSpace).takeWhile pyIsDigit,
              (r3.dropWhile pyIsSpace).dropWhile pyIsDigit,
              ?_, ?_, ?_, ?_, ?_, hop, ?_, ?_, ?_, ?_, ha.symm, hb.symm⟩
            · have step : cs.takeWhile pyIsSpace ++
                  ((cs.dropWhile pyIsSpace).takeWhile pyIsDigit ++
                    (((cs.dropWhile pyIsSpace).dropWhile pyIsDigit).takeWhile pyIsSpace ++
                      (c :: (r3.takeWhile pyIsSpace ++
                        ((r3.dropWhile pyIsSpace).takeWhile pyIsDigit ++
                          (r3.dropWhile pyIsSpace).dropWhile pyIsDigit))))) = cs := by
                rw [List.takeWhile_append_dropWhile (p := pyIsDigit)
                      (l := r3.dropWhile pyIsSpace),
                    List.takeWhile_append_dropWhile (p := pyIsSpace) (l := r3),
                    ← hr3,
                    List.takeWhile_append_dropWhile (p := pyIsSpace)
                      (l := (cs.dropWhile pyIsSpace).dropWhile pyIsDigit),
                    List.takeWhile_append_dropWhile (p := pyIsDigit)
                      (l := cs.dropWhile pyIsSpace),
                    List.takeWhile_append_dropWhile (p := pyIsSpace) (l := cs)]
              simpa [List.append_assoc] using step.symm
            · exact fun x hx => List.mem_takeWhile_imp hx
            · exact fun x hx => List.mem_takeWhile_imp hx
            · simpa [List.isEmpty_iff] using hne1
            · exact fun x hx => List.mem_takeWhile_imp hx
            · exact fun x hx => List.mem_takeWhile_imp hx
            · exact fun x hx => List.mem_takeWhile_imp hx
            · simpa [List.isEmpty_iff] using hne2
            · exact List.dropWhile_eq_nil_iff.mp (by simpa [List.isEmpty_iff] using hw4)

/-- C3: `parse_question` succeeds exactly on strings that are, in their
entirety, an integer, one operator symbol of the class, and a second
integer with optional surrounding whitespace, mapping the symbol through
`OP_SYMBOL_TO_NAME` and returning the two operands. -/
theorem claim_C3 (q : String) (op : String) (a b : Nat) :
    parse_question q = some (op, a, b) ↔
      ∃ w1 d1 w2 c w3 d2 w4,
        q.data = w1 ++ d1 ++ w2 ++ c :: (w3 ++ d2 ++ w4) ∧
        allSpace w1 ∧ allDigit d1 ∧ d1 ≠ [] ∧ allSpace w2 ∧
        OP_SYMBOL_TO_NAME c = some op ∧ allSpace w3 ∧ allDigit d2 ∧ d2 ≠ [] ∧
        allSpace w4 ∧ a = digitsVal d1 ∧ b = digitsVal d2 := by
  constructor
  · intro h
    exact pq_sound h
  · rintro ⟨w1, d1, w2, c, w3, d2, w4, hq, hw1, hd1, hne1, hw2, hop, hw3, hd2, hne2,
      hw4, ha, hb⟩
    subst ha hb
    unfold parse_question
    rw [hq]
    exact pq_complete hw1 hd1 hne1 hw2 hop hw3 hd2 hne2 hw4

/-- C3 witness: the claim's own example, `"588 ÷ 7"` with the division
sign, parsed through the characterization. -/
theorem claim_C3_witness : parse_question "588 ÷ 7" = some ("div", 588, 7) :=
  (claim_C3 "588 ÷ 7" "div" 588 7).mpr
    ⟨[], ['5', '8', '8'], [' '], '÷', [' '], ['7'], [],
      by decide, by decide, by decide, by decide, by decide, by decide, by decide,
      by decide, by decide, by decide, by decide, by decide⟩

/-- Helper for `pyInt`: the digit loop on a pure digit sequence folds up
its base-10 value. -/
theorem intGo_digits (ds : List Char) (acc : Nat) (hd : allDigit ds) :
    intGo ds acc = some (ds.foldl (fun a c => 10 * a + pyDigitVal c) acc) := by
  induction ds generalizing acc with
  | nil => rfl
  | cons c rest ih =>
    have hc : pyIsDigit c = true := hd c (by simp)
    have hcu : ¬(c = '_') := by rintro rfl; simp [pyIsDigit] at hc
    unfold intGo
    rw [if_neg hcu, if_pos hc,
      ih _ (fun x hx => hd x (List.mem_cons_of_mem c hx))]
    simp

/-- Helper: `int()` of a nonempty pure digit sequence is its value. -/
theorem pyInt_digits (ds : List Char) (hne : ds ≠ []) (hd : allDigit ds) :
    pyInt (String.mk ds) = some ((digitsVal ds : Nat) : Int) := by
  obtain ⟨e, ds', rfl⟩ := List.exists_cons_of_ne_nil hne
  have he : pyIsDigit e = true := hd e (by simp)
  have hstrip : (((e :: ds').dropWhile pyIsSpace).reverse.dropWhile pyIsSpace).reverse =
      e :: ds' := by
    rw [dropWhile_head_neg (not_space_of_digit he)]
    obtain ⟨f, r, hr⟩ := List.exists_cons_of_ne_nil
      (l := (e :: ds').reverse) (by simp)
    have hf : pyIsDigit f = true := by
      refine hd f ?_
      rw [← List.mem_reverse, hr]
      simp
    rw [hr, dropWhile_head_neg (not_space_of_digit hf), ← hr, List.reverse_reverse]
  have hplus : ¬(e = '+') := by rintro rfl; simp [pyIsDigit] at he
  have hminus : ¬(e = '-') := by rintro rfl; simp [pyIsDigit] at he
  have hstep : pyInt (String.mk (e :: ds')) =
      match (((String.mk (e :: ds')).data.dropWhile
          pyIsSpace).reverse.dropWhile pyIsSpace).reverse with
      | [] => none
      | c :: rest =>
        if c = '+' then (startDigits rest).map (fun n => (n : Int))
        else if c = '-' then (startDigits rest).map (fun n => -(n : Int))
        else (startDigits (c :: rest)).map (fun n => (n : Int)) := rfl
  have hdata : (String.mk (e :: ds')).data = e :: ds' := rfl
  rw [hstep, hdata, hstrip]
  rw [show (match e :: ds' with
      | [] => (none : Option Int)
      | c :: rest =>
        if c = '+' then (startDigits rest).map (fun n => (n : Int))
        else if c = '-' then (startDigits rest).map (fun n => -(n : Int))
        else (startDigits (c :: rest)).map (fun n => (n : Int))) =
      if e = '+' then (startDigits ds').map (fun n => (n : Int))
      else if e = '-' then (startDigits ds').map (fun n => -(n : Int))
      else (startDigits (e :: ds')).map (fun n => (n : Int)) from rfl]
  rw [if_neg hplus, if_neg hminus]
  simp only [startDigits]
  rw [if_pos he, intGo_digits _ _ (fun x hx => hd x (List.mem_cons_of_mem e hx))]
  simp [digitsVal]

/-- C7 counterexample: the claim states that operand tokens written with
non-ASCII digit characters are never parsed and never coerce to a number.
The code, however, inherits Python's Unicode-aware `\d` and `int()`:
`"٥+٣"` (Arabic-Indic five plus Arabic-Indic three) parses to
`add 5 3` even though its operand tokens contain no ASCII digit, and
`to_int` coerces `"١٢"` to `12` rather than null. -/
theorem claim_C7_counterexample :
    parse_question "٥+٣" = some ("add", 5, 3) ∧
    isAsciiDigit '٥' = false ∧ isAsciiDigit '٣' = false ∧
    pyInt "١٢" = some 12 := by
  refine ⟨by decide, by decide, by decide, by decide⟩

/-- C7 amended: the pipeline understands every decimal digit of the
(modelled) Unicode Nd class, not only plain ASCII decimal integers: a
question whose operand tokens are nonempty sequences of such digits
always parses, and numeric coercion of such a token always yields its
value, whether or not the digits are ASCII. -/
theorem claim_C7 (d1 d2 : List Char) (c : Char) (op : String)
    (hd1 : allDigit d1) (hne1 : d1 ≠ []) (hd2 : allDigit d2) (hne2 : d2 ≠ [])
    (hop : OP_SYMBOL_TO_NAME c = some op) :
    parse_question (String.mk (d1 ++ c :: d2)) =
      some (op, digitsVal d1, digitsVal d2) ∧
    pyInt (String.mk d1) = some ((digitsVal d1 : Nat) : Int) := by
  constructor
  · show pqChars (d1 ++ c :: d2) = _
    have h := @pq_complete [] d1 [] [] d2 [] c op
      (by intro x hx; simp at hx) hd1 hne1 (by intro x hx; simp at hx) hop
      (by intro x hx; simp at hx) hd2 hne2 (by intro x hx; simp at hx)
    simpa using h
  · exact pyInt_digits d1 hne1 hd1

/-- C7 amended witness: the Arabic-Indic instance again. -/
theorem claim_C7_witness :
    parse_question (String.mk (['٥'] ++ '+' :: ['٣'])) = some ("add", 5, 3) ∧
    pyInt (String.mk ['٥']) = some 5 := by
  have h := claim_C7 ['٥'] ['٣'] '+' "add"
    (by decide) (by decide) (by decide) (by decide) (by decide)
  simpa using h

/-! ## Reduction lemmas for `rowFor` -/

/-- Skip on `operationType == "unknown"`. -/
theorem rowFor_unknown (s : SessionRecord) (idx : Nat) (kvs : List (String × JValue))
    (ht : (jget kvs "operationType").getD (.jstr "") = .jstr "unknown") :
    rowFor s idx (.jobj kvs) = .ok none := by
  simp only [rowFor, ht]
  rfl

/-- Skip on a question carrying the synthetic `final-missed-` marker. -/
theorem rowFor_finalMissed (s : SessionRecord) (idx : Nat)
    (kvs : List (String × JValue)) (q : String)
    (hq : (jget kvs "question").getD (.jstr "") = .jstr q)
    (hnf : pyStartsWith q "final-missed-" = true) :
    rowFor s idx (.jobj kvs) = .ok none := by
  simp only [rowFor, hq]
  cases htv : (jget kvs "operationType").getD (.jstr "") <;>
    simp [hnf]

/-- The no-skip path: with a string question that does not carry the
marker and a string operation type other than `"unknown"`, the loop body
resolves the operation with `operationType` first and the parsed symbol
as fallback, and emits a row exactly when an operation was resolved and
the question parsed. -/
theorem rowFor_run (s : SessionRecord) (idx : Nat) (kvs : List (String × JValue))
    (q t : String)
    (hq : (jget kvs "question").getD (.jstr "") = .jstr q)
    (ht : (jget kvs "operationType").getD (.jstr "") = .jstr t)
    (hnu : (t == "unknown") = false)
    (hnf : pyStartsWith q "final-missed-" = false) :
    rowFor s idx (.jobj kvs) =
      match OP_TYPE_TO_NAME t, parse_question q with
      | some op, some (_, a, b) => .ok (some (mkRow s op a b idx))
      | none, some (op, a, b) => .ok (some (mkRow s op a b idx))
      | _, none => .ok none := by
  simp only [rowFor, hq, ht, hnu, Bool.false_eq_true, if_false, hnf]
  cases hty : OP_TYPE_TO_NAME t <;> cases hpq : parse_question q <;>
    simp [mkRow]

/-- C1: for a problem entry that is not skipped, the operation name from
`operationType` takes priority over the one parsed from the question, the
parsed operation is used only when `operationType` yields no mapping, and
the operands come exclusively from parsing the question — so an entry
whose `operationType` maps to a valid operation but whose question does
not parse produces no row. -/
theorem claim_C1 (s : SessionRecord) (idx : Nat) (kvs : List (String × JValue))
    (q t : String)
    (hq : (jget kvs "question").getD (.jstr "") = .jstr q)
    (ht : (jget kvs "operationType").getD (.jstr "") = .jstr t)
    (hnu : (t == "unknown") = false)
    (hnf : pyStartsWith q "final-missed-" = false) :
    (∀ op, OP_TYPE_TO_NAME t = some op → parse_question q = none →
      rowFor s idx (.jobj kvs) = .ok none) ∧
    (∀ op op' a b, OP_TYPE_TO_NAME t = some op →
      parse_question q = some (op', a, b) →
      rowFor s idx (.jobj kvs) = .ok (some (mkRow s op a b idx))) ∧
    (∀ op a b, OP_TYPE_TO_NAME t = none → parse_question q = some (op, a, b) →
      rowFor s idx (.jobj kvs) = .ok (some (mkRow s op a b idx))) := by
  refine ⟨?_, ?_, ?_⟩
  · intro op hty hpq
    rw [rowFor_run s idx kvs q t hq ht hnu hnf, hty, hpq]
  · intro op op' a b hty hpq
    rw [rowFor_run s idx kvs q t hq ht hnu hnf, hty, hpq]
  · intro op a b hty hpq
    rw [rowFor_run s idx kvs q t hq ht hnu hnf, hty, hpq]

/-- C1 witness: `operationType="subtraction"` with question `"3 + 4"`
emits `sub 3 4` (priority to the tag, operands from the text), and the
same tag with an unparseable question emits nothing. -/
theorem claim_C1_witness :
    rowFor sampleSession 1
        (.jobj [("question", .jstr "3 + 4"), ("operationType", .jstr "subtraction")]) =
      .ok (some (mkRow sampleSession "sub" 3 4 1)) ∧
    rowFor sampleSession 2
        (.jobj [("question", .jstr "not parseable"),
          ("operationType", .jstr "subtraction")]) =
      .ok none := by
  constructor
  · exact (claim_C1 sampleSession 1
      [("question", .jstr "3 + 4"), ("operationType", .jstr "subtraction")]
      "3 + 4" "subtraction" rfl rfl (by decide)
      (by decide)).2.1 "sub" "add" 3 4 (by decide) (by decide)
  · exact (claim_C1 sampleSession 2
      [("question", .jstr "not parseable"), ("operationType", .jstr "subtraction")]
      "not parseable" "subtraction" rfl rfl (by decide)
      (by decide)).1 "sub" (by decide) (by decide)

/-- C4: an entry with `operationType = "unknown"`, or whose question
string starts with `"final-missed-"`, produces no row, whatever else the
entry contains. -/
theorem claim_C4 (s : SessionRecord) (idx : Nat) (kvs : List (String × JValue)) :
    ((jget kvs "operationType").getD (.jstr "") = .jstr "unknown" →
      rowFor s idx (.jobj kvs) = .ok none) ∧
    (∀ q, (jget kvs "question").getD (.jstr "") = .jstr q →
      pyStartsWith q "final-missed-" = true → rowFor s idx (.jobj kvs) = .ok none) :=
  ⟨fun ht => rowFor_unknown s idx kvs ht,
    fun q hq hf => rowFor_finalMissed s idx kvs q hq hf⟩

/-- C4 witness: `operationType="unknown"` with the perfectly parseable
question `"5 + 5"` is skipped, as is a `final-missed-` question with a
valid `operationType`. -/
theorem claim_C4_witness :
    rowFor sampleSession 1
        (.jobj [("question", .jstr "5 + 5"), ("operationType", .jstr "unknown")]) =
      .ok none ∧
    rowFor sampleSession 3
        (.jobj [("question", .jstr "final-missed-3"),
          ("operationType", .jstr "addition")]) =
      .ok none := by
  constructor
  · exact (claim_C4 sampleSession 1
      [("question", .jstr "5 + 5"), ("operationType", .jstr "unknown")]).1 rfl
  · exact (claim_C4 sampleSession 3
      [("question", .jstr "final-missed-3"), ("operationType", .jstr "addition")]).2
      "final-missed-3" rfl (by decide)

/-- Every emitted row has the `mkRow` shape, so its last field is the
decimal index the loop body received. -/
theorem rowFor_some (s : SessionRecord) (idx : Nat) (p : JValue) (r : Row)
    (h : rowFor s idx p = .ok (some r)) : ∃ op a b, r = mkRow s op a b idx := by
  cases p <;> simp only [rowFor] at h <;> try exact absurd h (by simp)
  next kvs =>
    split at h
    · exact absurd h (by simp)
    · split at h
      · split at h
        · exact absurd h (by simp)
        · split at h
          · exact absurd h (by simp)
          · exact absurd h (by simp)
          · split at h
            next =>
              exact ⟨_, _, _, by simpa [mkRow] using h.symm⟩
            next => exact absurd h (by simp)
      · exact absurd h (by simp)

/-- The inner loop keeps the original 1-based positions: its output is
the `filterMap` of the loop body over the positions of the problems
list, so skipped entries leave gaps without shifting later indices. -/
theorem rowsGo_eq (s : SessionRecord) (ps : List JValue) (k : Nat) (rows : List Row)
    (h : rowsGo s k ps = .ok rows) :
    rows = (List.range ps.length).filterMap (fun i =>
      match rowFor s (k + i) (ps.getD i .jnull) with
      | .ok (some r) => some r
      | _ => none) := by
  induction ps generalizing k rows with
  | nil =>
    simp only [rowsGo] at h
    simp only [List.length_nil, List.range_zero, List.filterMap_nil]
    simpa using h.symm
  | cons p ps ih =>
    have hfun : ((fun i =>
        match rowFor s (k + i) ((p :: ps).getD i JValue.jnull) with
        | Except.ok (some r) => some r
        | _ => none) ∘ Nat.succ) =
        (fun i =>
        match rowFor s (k + 1 + i) (ps.getD i JValue.jnull) with
        | Except.ok (some r) => some r
        | _ => none) := by
      funext i
      have harith : k + Nat.succ i = k + 1 + i := by omega
      simp [Function.comp, List.getD_cons_succ, harith]
    simp only [rowsGo] at h
    split at h
    · exact absurd h (by simp)
    next hnone =>
      rw [List.length_cons, List.range_succ_eq_map, List.filterMap_cons,
        List.filterMap_map, hfun]
      simp only [Nat.add_zero, List.getD_cons_zero, hnone]
      exact ih (k + 1) rows h
    next r' hsome =>
      rcases hm : rowsGo s (k + 1) ps with e | rest
      · rw [hm] at h; exact absurd h (by simp [Except.map])
      · rw [hm] at h
        have hr : rows = r' :: rest := by
          simp only [Except.map] at h
          simpa using h.symm
        subst hr
        rw [List.length_cons, List.range_succ_eq_map, List.filterMap_cons,
          List.filterMap_map, hfun]
        simp only [Nat.add_zero, List.getD_cons_zero, hsome]
        rw [ih (k + 1) rest hm]

/-- C5: when the row builder succeeds on a session, its rows are exactly
the `filterMap` of the loop body over the 1-based positions of the
session's original problems list — skipped entries leave gaps in the
emitted `ProblemIndex` sequence and do not shift surviving indices —
and each row's final `ProblemIndex` field is the decimal rendering of
its problem's original position. -/
theorem claim_C5 (s : SessionRecord) (rows : List Row)
    (h : rowsForSession s = .ok rows) :
    rows = (List.range s.problems.length).filterMap (fun i =>
      match rowFor s (1 + i) (s.problems.getD i .jnull) with
      | .ok (some r) => some r
      | _ => none) ∧
    ∀ r ∈ rows, ∃ i, i < s.problems.length ∧
      rowFor s (1 + i) (s.problems.getD i .jnull) = .ok (some r) ∧
      r.getLast? = some (toString (1 + i)) := by
  have h1 := rowsGo_eq s s.problems 1 rows h
  refine ⟨h1, ?_⟩
  intro r hr
  rw [h1] at hr
  obtain ⟨i, hi, hfi⟩ := List.mem_filterMap.mp hr
  rcases hrf : rowFor s (1 + i) (s.problems.getD i .jnull) with e | o
  · rw [hrf] at hfi; exact absurd hfi (by simp)
  · rcases o with _ | r'
    · rw [hrf] at hfi; exact absurd hfi (by simp)
    · rw [hrf] at hfi
      obtain rfl : r' = r := by simpa using hfi
      obtain ⟨op, a, b, rfl⟩ := rowFor_some s (1 + i) _ _ hrf
      exact ⟨i, by simpa using hi, hrf, by simp [mkRow]⟩

/-- C5 witness: three problems with the second skipped produce exactly
the rows indexed `"1"` and `"3"`. -/
theorem claim_C5_witness :
    (mkRow sampleSession5 "add" 3 4 1 :: mkRow sampleSession5 "sub" 1 2 3 :: []) =
      (List.range sampleSession5.problems.length).filterMap (fun i =>
        match rowFor sampleSession5 (1 + i) (sampleSession5.problems.getD i .jnull) with
        | .ok (some r) => some r
        | _ => none) :=
  (claim_C5 sampleSession5
    [mkRow sampleSession5 "add" 3 4 1, mkRow sampleSession5 "sub" 1 2 3] (by rfl)).1

/-- C9: the row builder processes sessions independently and in order:
on a concatenation of two session lists it returns the concatenation of
the two outputs (with a left-to-right error), and a session whose
problems list is empty contributes nothing, wherever it sits. -/
theorem claim_C9 (s1 s2 : List SessionRecord) :
    build_problem_sheet_rows (s1 ++ s2) =
      (match build_problem_sheet_rows s1 with
       | .error e => .error e
       | .ok r1 =>
         match build_problem_sheet_rows s2 with
         | .error e => .error e
         | .ok r2 => .ok (r1 ++ r2)) ∧
    (∀ (xs ys : List SessionRecord) (s : SessionRecord), s.problems = [] →
      build_problem_sheet_rows (xs ++ s :: ys) = build_problem_sheet_rows (xs ++ ys)) := by
  constructor
  · induction s1 with
    | nil =>
      simp only [List.nil_append, build_problem_sheet_rows]
      cases hb : build_problem_sheet_rows s2 <;> simp
    | cons s ss ih =>
      simp only [List.cons_append, build_problem_sheet_rows]
      cases hrf : rowsForSession s
      · simp
      · cases hb1 : build_problem_sheet_rows ss <;>
          cases hb2 : build_problem_sheet_rows s2 <;>
          simp [List.append_eq, ih, hb1, hb2, Except.map, List.append_assoc]
  · intro xs ys s hs
    induction xs with
    | nil =>
      have hrow : rowsForSession s = .ok [] := by
        unfold rowsForSession
        rw [hs]
        rfl
      simp only [List.nil_append, build_problem_sheet_rows, hrow]
      cases hb : build_problem_sheet_rows ys <;> simp [Except.map]
    | cons x xs ih =>
      simp only [List.cons_append, build_problem_sheet_rows]
      cases hrf : rowsForSession x <;> simp [ih]

/-- C9 witness: concatenating a productive session list with a
singleton, and inserting a session with an empty problems list. -/
theorem claim_C9_witness :
    build_problem_sheet_rows ([sampleSession5] ++ [sampleSession]) =
      .ok ([mkRow sampleSession5 "add" 3 4 1, mkRow sampleSession5 "sub" 1 2 3] ++ []) ∧
    build_problem_sheet_rows ([sampleSession5] ++ sampleSession :: [sampleSession5]) =
      build_problem_sheet_rows ([sampleSession5] ++ [sampleSession5]) := by
  constructor
  · rw [(claim_C9 [sampleSession5] [sampleSession]).1]
    rfl
  · exact (claim_C9 [] []).2 [sampleSession5] [sampleSession5] sampleSession rfl

/-- C10: the row builder's silent-skip guarantee needs every problems
element to be a mapping with a string question: a non-mapping element,
or a mapping whose question value is a number, makes
`build_problem_sheet_rows` raise (`AttributeError` in the source)
rather than skip or emit; with the precondition met, an undecodable
entry is skipped silently. -/
theorem claim_C10 :
    build_problem_sheet_rows [{ sampleSession with problems := [.jnum "5"] }] =
      .error "AttributeError" ∧
    build_problem_sheet_rows [{ sampleSession with problems :=
      [.jobj [("question", .jnum "3"), ("operationType", .jstr "addition")]] }] =
      .error "AttributeError" ∧
    build_problem_sheet_rows [{ sampleSession with problems :=
      [.jobj [("question", .jstr "oops"), ("operationType", .jstr "addition")]] }] =
      .ok [] :=
  ⟨rfl, rfl, rfl⟩

/-! ## Bracket bounds -/

theorem pyFindIdx_append {c : Char} {p : List Char} (hp : c ∉ p) (r : List Char) :
    pyFindIdx c (p ++ c :: r) = some p.length := by
  induction p with
  | nil => simp [pyFindIdx]
  | cons x xs ih =>
    have hx : ¬(x = c) := by
      rintro rfl
      exact hp (List.mem_cons_self x xs)
    simp only [List.cons_append, pyFindIdx, hx, if_false, List.append_eq]
    rw [ih (fun hmem => hp (List.mem_cons_of_mem x hmem))]
    simp

theorem rfindIdx_append {c : Char} {r : List Char} (hr : c ∉ r) (l : List Char) :
    rfindIdx c (l ++ c :: r) = some l.length := by
  unfold rfindIdx
  rw [show (l ++ c :: r).reverse = r.reverse ++ c :: l.reverse by simp,
    pyFindIdx_append (by simpa using hr)]
  show some ((l ++ c :: r).length - 1 - r.reverse.length) = some l.length
  congr 1
  simp only [List.length_append, List.length_cons, List.length_reverse]
  omega

/-- C6 amended: on a chunk decomposing as `p ++ "[" ++ j ++ "]" ++ sfx`
with no `[` in `p` and no `]` in `sfx`, the per-chunk step hands the
region before the first `[` to the field splitter with its TRAILING
commas/spaces removed (`rstrip`), and the region after the last `]` with
its LEADING commas/spaces removed (`lstrip`) — a one-sided trim on each
region, not the claimed both-ends trim. -/
theorem claim_C6 (p j sfx : List Char) (hp : '[' ∉ p) (hs : ']' ∉ sfx)
    (hh : SESSION_HEADER.data.isPrefixOf (p ++ '[' :: (j ++ ']' :: sfx)) = false) :
    processChunk (p ++ '[' :: (j ++ ']' :: sfx)) =
      processRegions (pyRstripCS p) ('[' :: (j ++ [']'])) (pyLstripCS sfx) := by
  have hne : (p ++ '[' :: (j ++ ']' :: sfx)).isEmpty = false := by
    cases p <;> rfl
  have hlb : pyFindIdx '[' (p ++ '[' :: (j ++ ']' :: sfx)) = some p.length :=
    pyFindIdx_append hp _
  have hrb : rfindIdx ']' (p ++ '[' :: (j ++ ']' :: sfx)) =
      some (p.length + 1 + j.length) := by
    rw [show p ++ '[' :: (j ++ ']' :: sfx) = (p ++ '[' :: j) ++ ']' :: sfx by simp]
    rw [rfindIdx_append hs]
    simp only [Option.some.injEq, List.length_append, List.length_cons]
    omega
  have htake : (p ++ '[' :: (j ++ ']' :: sfx)).take p.length = p := by
    simp
  have hdrop : (p ++ '[' :: (j ++ ']' :: sfx)).drop p.length =
      '[' :: (j ++ ']' :: sfx) := by
    simp
  have hjson : ('[' :: (j ++ ']' :: sfx)).take (p.length + 1 + j.length + 1 - p.length) =
      '[' :: (j ++ [']']) := by
    rw [show ('[' :: (j ++ ']' :: sfx)) = ('[' :: (j ++ [']'])) ++ sfx by simp]
    rw [show p.length + 1 + j.length + 1 - p.length = ('[' :: (j ++ [']'])).length by
      simp; omega]
    exact List.take_left _ _
  have hsuf : (p ++ '[' :: (j ++ ']' :: sfx)).drop (p.length + 1 + j.length + 1) =
      sfx := by
    rw [show p ++ '[' :: (j ++ ']' :: sfx) = ((p ++ '[' :: j) ++ [']']) ++ sfx by simp]
    rw [show p.length + 1 + j.length + 1 = ((p ++ '[' :: j) ++ [']']).length by
      simp; omega]
    exact List.drop_left _ _
  unfold processChunk
  rw [hne, hlb, hrb]
  simp only [Bool.false_eq_true, if_false, hh]
  rw [if_neg (by omega), htake, hdrop, hjson, hsuf]

/-- C6 amended witness: a concrete chunk with surrounding comma noise. -/
theorem claim_C6_witness :
    processChunk ((",a,b,c,d,e, " : String).data ++
        '[' :: (("1" : String).data ++ ']' :: (", m, 7, 8" : String).data)) =
      processRegions (pyRstripCS (",a,b,c,d,e, " : String).data)
        ('[' :: (("1" : String).data ++ [']']))
        (pyLstripCS (", m, 7, 8" : String).data) :=
  claim_C6 (",a,b,c,d,e, " : String).data ("1" : String).data
    (", m, 7, 8" : String).data (by decide) (by decide) (by decide)

/-- C6 counterexample: the claim says commas/spaces are removed from
both the leading and trailing ends of the prefix region.  On the region
`",t1,c1,u1,12,34,"` the claimed both-ends trim gives `"t1,c1,u1,12,34"`
while the code's `rstrip` keeps the leading comma, so the first CSV
field is empty and every prefix field shifts by one: `timestamp` comes
out as `""` and `duration` as null, observably different from the
claimed behaviour. -/
theorem claim_C6_counterexample :
    trimBothCS (",t1,c1,u1,12,34," : String).data =
      ("t1,c1,u1,12,34" : String).data ∧
    pyRstripCS (",t1,c1,u1,12,34," : String).data =
      (",t1,c1,u1,12,34" : String).data ∧
    pyRstripCS (",t1,c1,u1,12,34," : String).data ≠
      trimBothCS (",t1,c1,u1,12,34," : String).data ∧
    extract_session_records (SESSION_HEADER ++ "<>,t1,c1,u1,12,34,[1],m1,5,6") =
      .ok [⟨"", "t1", "c1", none, some 12, [.jnum "1"], "m1", some 5, some 6⟩] :=
  ⟨by decide, by decide, by decide, by rfl⟩

/-! ## Suffix padding -/

theorem getD_replicate_nil (n k : Nat) :
    (List.replicate n ([] : List Char)).getD k [] = [] := by
  induction n generalizing k with
  | zero => simp
  | succ n ih => cases k <;> simp [List.replicate, ih]

/-- The `while`-loop padding of the suffix fields agrees with indexing
that defaults to the empty string. -/
theorem getD_pad (l : List (List Char)) (i : Nat) :
    (l ++ List.replicate (3 - l.length) ([] : List Char)).getD i [] =
      l.getD i [] := by
  by_cases h : i < l.length
  · rw [List.getD_append _ _ _ _ h]
  · push_neg at h
    rw [List.getD_eq_default _ _ h, List.getD_append_right _ _ _ _ h,
      getD_replicate_nil]

/-- C8: an accepted chunk always yields a record with all nine fields
assigned: the three leading strings and two numeric prefix fields come
from the prefix split (null exactly when `int()` fails), the problems
come from the decoded JSON array, and the three suffix fields default to
the empty string / null when the trailing data is truncated. -/
theorem claim_C8 (preR jsonR sufR : List Char) (r : SessionRecord)
    (h : processRegions preR jsonR sufR = .record r) :
    r.timestamp = String.mk (((splitComma preR).map pyStrip).getD 0 []) ∧
    r.client_id = String.mk (((splitComma preR).map pyStrip).getD 1 []) ∧
    r.url = String.mk (((splitComma preR).map pyStrip).getD 2 []) ∧
    r.duration = pyInt (String.mk (((splitComma preR).map pyStrip).getD 3 [])) ∧
    r.score = pyInt (String.mk (((splitComma preR).map pyStrip).getD 4 [])) ∧
    (∃ v, jsonParse (String.mk jsonR) = some v ∧ r.problems = jarrElems v) ∧
    r.mode = String.mk ((((splitComma sufR).map pyStrip).filter (· ≠ [])).getD 0 []) ∧
    r.mapped_duration =
      pyInt (String.mk ((((splitComma sufR).map pyStrip).filter (· ≠ [])).getD 1 [])) ∧
    r.score_120 =
      pyInt (String.mk ((((splitComma sufR).map pyStrip).filter (· ≠ [])).getD 2 [])) ∧
    (((splitComma sufR).map pyStrip).filter (· ≠ []) = [] →
      r.mode = "" ∧ r.mapped_duration = none ∧ r.score_120 = none) ∧
    ((((splitComma sufR).map pyStrip).filter (· ≠ [])).length ≤ 1 →
      r.mapped_duration = none ∧ r.score_120 = none) ∧
    ((((splitComma sufR).map pyStrip).filter (· ≠ [])).length ≤ 2 →
      r.score_120 = none) := by
  simp only [processRegions] at h
  split at h
  · exact absurd h (by simp)
  · split at h
    · exact absurd h (by simp)
    next v hv =>
      have hr : r = {
          timestamp := String.mk (((splitComma preR).map pyStrip).getD 0 [])
          client_id := String.mk (((splitComma preR).map pyStrip).getD 1 [])
          url := String.mk (((splitComma preR).map pyStrip).getD 2 [])
          duration := pyInt (String.mk (((splitComma preR).map pyStrip).getD 3 []))
          score := pyInt (String.mk (((splitComma preR).map pyStrip).getD 4 []))
          problems := jarrElems v
          mode := String.mk (((((splitComma sufR).map pyStrip).filter (· ≠ [])) ++
            List.replicate
              (3 - (((splitComma sufR).map pyStrip).filter (· ≠ [])).length) []).getD 0 [])
          mapped_duration := pyInt (String.mk
            (((((splitComma sufR).map pyStrip).filter (· ≠ [])) ++
              List.replicate
                (3 - (((splitComma sufR).map pyStrip).filter (· ≠ [])).length)
                []).getD 1 []))
          score_120 := pyInt (String.mk
            (((((splitComma sufR).map pyStrip).filter (· ≠ [])) ++
              List.replicate
                (3 - (((splitComma sufR).map pyStrip).filter (· ≠ [])).length)
                []).getD 2 [])) } := by
        have := h.symm
        simpa using this
      subst hr
      simp only [getD_pad]
      refine ⟨trivial, trivial, trivial, trivial, trivial, ⟨v, hv, rfl⟩, trivial,
        trivial, trivial, ?_, ?_, ?_⟩
      · intro hnil
        rw [hnil]
        exact ⟨rfl, rfl, rfl⟩
      · intro hlen
        constructor
        · rw [List.getD_eq_default _ _ hlen]; rfl
        · rw [List.getD_eq_default _ _ (le_trans hlen (by omega))]; rfl
      · intro hlen
        rw [List.getD_eq_default _ _ hlen]; rfl

/-- C8 witness: a chunk whose trailing data is entirely truncated and
whose `score` field is non-numeric still produces a fully populated
record, with empty/null defaults. -/
theorem claim_C8_witness :
    processRegions ("t,c,u,9,x" : String).data ("[1]" : String).data [] =
      .record sampleRecordC8 ∧
    (sampleRecordC8.mode = "" ∧ sampleRecordC8.mapped_duration = none ∧
      sampleRecordC8.score_120 = none) := by
  refine ⟨rfl, ?_⟩
  have h := claim_C8 ("t,c,u,9,x" : String).data ("[1]" : String).data []
    sampleRecordC8 rfl
  exact h.2.2.2.2.2.2.2.2.2.1 rfl

/-! ## Error characterization of the extractor -/

/-- A chunk makes the loop body raise exactly when it survives every
structural filter (nonempty, not a repeated header, a well-ordered
bracket pair, at least five prefix fields) and its bracketed substring
then fails to decode as JSON. -/
theorem processChunk_jsonError_iff (chunk : List Char) :
    processChunk chunk = .jsonError ↔
      chunk ≠ [] ∧ SESSION_HEADER.data.isPrefixOf chunk = false ∧
      ∃ lb rb, pyFindIdx '[' chunk = some lb ∧ rfindIdx ']' chunk = some rb ∧
        ¬rb < lb ∧
        ¬((splitComma (pyRstripCS (chunk.take lb))).map pyStrip).length < 5 ∧
        jsonParse (String.mk ((chunk.drop lb).take (rb + 1 - lb))) = none := by
  by_cases h1 : chunk.isEmpty
  · have : chunk = [] := by simpa [List.isEmpty_iff] using h1
    simp [processChunk, h1, this]
  · have hne : chunk ≠ [] := by simpa [List.isEmpty_iff] using h1
    by_cases h2 : SESSION_HEADER.data.isPrefixOf chunk
    · simp [processChunk, h1, h2, hne]
    · rcases hlb : pyFindIdx '[' chunk with _ | lb
      · simp [processChunk, h1, h2, hlb, hne]
      · rcases hrb : rfindIdx ']' chunk with _ | rb
        · simp [processChunk, h1, h2, hlb, hrb, hne]
        · by_cases h3 : rb < lb
          · simp [processChunk, h1, h2, hlb, hrb, h3, hne]
          · by_cases h4 : (splitComma (pyRstripCS (chunk.take lb))).length < 5
            · simp [processChunk, processRegions, h1, h2, hlb, hrb, h3, h4, hne]
            · rcases hjp :
                jsonParse (String.mk ((chunk.drop lb).take (rb + 1 - lb))) with _ | v
              · simp [processChunk, processRegions, h1, h2, hlb, hrb, h3, h4, hjp, hne]
                omega
              · simp [processChunk, processRegions, h1, h2, hlb, hrb, h3, h4, hjp, hne]

/-- The record loop errors exactly when some chunk raises. -/
theorem extractGo_error_iff (chunks : List (List Char)) :
    (∃ e, extractGo chunks = .error e) ↔
      ∃ chunk ∈ chunks, processChunk chunk = .jsonError := by
  induction chunks with
  | nil => simp [extractGo]
  | cons c cs ih =>
    cases hpc : processChunk c with
    | skip => simp [extractGo, hpc, ih]
    | jsonError =>
      simp only [extractGo, hpc]
      constructor
      · intro _
        exact ⟨c, List.mem_cons_self c cs, hpc⟩
      · intro _
        exact ⟨.jsonDecode, rfl⟩
    | record r =>
      rcases hgo : extractGo cs with e | rs
      · simp only [extractGo, hpc, hgo]
        constructor
        · intro _
          rcases ih.mp ⟨e, hgo⟩ with ⟨ch, hch, herr⟩
          exact ⟨ch, List.mem_cons_of_mem c hch, herr⟩
        · intro _
          exact ⟨e, by simp [Except.map]⟩
      · simp only [extractGo, hpc, hgo]
        constructor
        · rintro ⟨e, he⟩
          exact absurd he (by simp [Except.map])
        · rintro ⟨ch, hch, herr⟩
          rcases List.mem_cons.mp hch with rfl | hch'
          · rw [hpc] at herr
            exact absurd herr (by simp)
          · rcases ih.mpr ⟨ch, hch', herr⟩ with ⟨e, he⟩
            rw [hgo] at he
            exact absurd he (by simp)

/-- C2: `extract_session_records` throws exactly when the header marker
is absent, or when some chunk survives every structural filter (nonempty,
not a repeated header, well-ordered bracket pair, at least five prefix
fields — malformed chunks are silently skipped, never an error) and its
bracketed substring then fails to decode as JSON, which aborts the whole
run. -/
theorem claim_C2 (raw : String) :
    (∃ e, extract_session_records raw = .error e) ↔
      dropAfterSub SESSION_HEADER.data (raw.data.filter (· ≠ '\r')) = none ∨
      ∃ rest,
        dropAfterSub SESSION_HEADER.data (raw.data.filter (· ≠ '\r')) = some rest ∧
        ∃ chunk ∈ (splitAngle rest).map pyStrip,
          chunk ≠ [] ∧ SESSION_HEADER.data.isPrefixOf chunk = false ∧
          ∃ lb rb, pyFindIdx '[' chunk = some lb ∧ rfindIdx ']' chunk = some rb ∧
            ¬rb < lb ∧
            ¬((splitComma (pyRstripCS (chunk.take lb))).map pyStrip).length < 5 ∧
            jsonParse (String.mk ((chunk.drop lb).take (rb + 1 - lb))) = none := by
  unfold extract_session_records
  rcases hdr : dropAfterSub SESSION_HEADER.data (raw.data.filter (· ≠ '\r')) with _ | rest
  · simp only [hdr]
    simp
  · simp only [hdr]
    rw [extractGo_error_iff]
    simp [processChunk_jsonError_iff]

/-- C2 witness: with the header present, a structurally sound chunk whose
bracketed substring is not JSON aborts the run, while a chunk with bad
JSON but fewer than five prefix fields is skipped silently and the run
succeeds. -/
theorem claim_C2_witness :
    (∃ e, extract_session_records
      (SESSION_HEADER ++ "<>a,b,c,d,e,[broken],f") = .error e) ∧
    extract_session_records (SESSION_HEADER ++ "<>a,b,[broken],f<>junk") = .ok [] := by
  constructor
  · refine (claim_C2 (SESSION_HEADER ++ "<>a,b,c,d,e,[broken],f")).mpr
      (Or.inr ⟨("<>a,b,c,d,e,[broken],f" : String).data, by decide,
        ("a,b,c,d,e,[broken],f" : String).data, by decide, by decide, by decide,
        10, 17, by decide, by decide, by decide, by decide, by rfl⟩)
  · rfl

end ZetamacFix
